import Mathlib

/-!
Verification of the HeilbronnTrafficSim hybrid pipeline.

Shallow embedding of the pipeline logic found in
`src/hybrid/hybrid_server.py`, `src/matsim/matism_runner.py`,
`src/sumo/sumo_runner.py`, `src/orchestrator/run_hybrid.py` and
`src/api/server.py`.

Modelling conventions:
  - Python float values and the values accepted by the builtin `float`
    coercion are modelled by `FVal`: either a numeric value (a rational,
    standing for the IEEE value the coercion produces) or a malformed
    value on which `float` raises `ValueError`.
  - Python dictionaries are modelled as association lists with unique
    keys in insertion order; `dictInsert` mirrors dict item assignment
    (replace in place when the key exists, append otherwise) and
    `dictLookup` mirrors key lookup / the `in` test.
  - Raising code is modelled in `Except PyErr`.
  - Effects of the external engines (subprocess return codes, parsed
    output files, the stochastic per-hotspot micro result) are supplied
    by explicit environment records, since the engines are outside the
    repository.
-/

deriving instance DecidableEq for Except

/-- Exceptions the embedded code can raise. -/
inductive PyErr where
  | runtimeError (msg : String)
  | keyError
  | valueError
  deriving DecidableEq, Repr

/-- A Python value in a numeric field position: either a value on which the
builtin `float` coercion succeeds (carrying the number it produces), or a
malformed value on which `float` raises `ValueError`. -/
inductive FVal where
  | num (q : ℚ)
  | bad (s : String)
  deriving DecidableEq, Repr

/-- The builtin `float` coercion on an `FVal`. -/
def pyFloat : FVal → Except PyErr ℚ
  | .num q => .ok q
  | .bad _ => .error .valueError

/-- One row of the mesoscopic link-statistics table: the fields the pipeline
reads (`linkId`, `time`, `delay`); a missing key is `none`. -/
structure LinkRec where
  linkId : Option String
  time : Option FVal
  delay : Option FVal
  deriving DecidableEq, Repr

/-- The dictionary returned by `MATSimRunner.run_baseline`; only the
`link_stats` entry is ever read, via `.get("link_stats", [])`, hence the
`Option`. -/
structure MatsimRes where
  link_stats : Option (List LinkRec)
  deriving DecidableEq, Repr

/-- `matsim_res.get("link_stats", [])`. -/
def getLinkStats (res : MatsimRes) : List LinkRec :=
  res.link_stats.getD []

/-- The sort key of `MATSimRunner.detect_hotspots`:
`try: return float(r.get("delay", 0)) except: return 0`. -/
def delay_key (r : LinkRec) : ℚ :=
  match r.delay with
  | none => 0
  | some (.num q) => q
  | some (.bad _) => 0

/-- Stable insertion before the first element whose key is at most the key of
the inserted element; helper for the descending stable sort. -/
def insertByDesc (key : α → ℚ) (x : α) : List α → List α
  | [] => [x]
  | y :: ys => if key y ≤ key x then x :: y :: ys else y :: insertByDesc key x ys

/-- Stable descending sort by a rational key; models the Python builtin
`sorted(stats, key=delay_key, reverse=True)`, which is a stable sort that
keeps elements with equal keys in input order. -/
def sortByDesc (key : α → ℚ) : List α → List α
  | [] => []
  | x :: xs => insertByDesc key x (sortByDesc key xs)

/-- Python slice `l[:n]` for an `int` bound `n`: take the first `n` elements
when `n` is nonnegative, drop `-n` elements from the end otherwise. -/
def pySlice (l : List α) (n : Int) : List α :=
  if 0 ≤ n then l.take n.toNat else l.take ((l.length : Int) + n).toNat

/-- `r["linkId"]`: raises `KeyError` when the key is missing. -/
def getLinkId (r : LinkRec) : Except PyErr String :=
  match r.linkId with
  | some s => .ok s
  | none => .error .keyError

/-- The list comprehension `[r["linkId"] for r in rs]`: evaluated left to
right, raising at the first record without a `linkId` key. -/
def mapLinkIds : List LinkRec → Except PyErr (List String)
  | [] => .ok []
  | r :: rest =>
    match getLinkId r with
    | .error e => .error e
    | .ok s =>
      match mapLinkIds rest with
      | .error e => .error e
      | .ok ss => .ok (s :: ss)

/-- `MATSimRunner.detect_hotspots` (matism_runner.py lines 53-64): read the
link stats (default empty), return `[]` for empty input, otherwise sort by
the coerced delay descending (stable) and return the `linkId` values of the
first `top_n` records. -/
def detect_hotspots (matsim_res : MatsimRes) (top_n : Int) : Except PyErr (List String) :=
  if (getLinkStats matsim_res).isEmpty then .ok []
  else mapLinkIds (pySlice (sortByDesc delay_key (getLinkStats matsim_res)) top_n)

/-- A micro-simulation result record; only `avg_delay` is read, via
`micro.get("avg_delay", 0)`. -/
structure MicroRec where
  avg_delay : Option FVal
  deriving DecidableEq, Repr

/-- `float(micro.get("avg_delay", 0))` in `HybridServer.reintegrate`: the
missing key defaults to `0`, but the coercion itself is NOT protected by the
surrounding `try`, so a malformed value raises. -/
def microAvgDelay (m : MicroRec) : Except PyErr ℚ :=
  match m.avg_delay with
  | none => .ok 0
  | some v => pyFloat v

/-- `try: orig_tt = float(link.get("time", 0)) except: orig_tt = 0` in
`HybridServer.reintegrate`: total, falling back to zero. -/
def orig_tt (link : LinkRec) : ℚ :=
  match link.time with
  | none => 0
  | some (.num q) => q
  | some (.bad _) => 0

/-- One entry of the corrections dictionary. -/
structure Corr where
  orig : ℚ
  corrected : ℚ
  deriving DecidableEq, Repr

/-- Dictionary lookup on an insertion-ordered association list. -/
def dictLookup (k : String) : List (String × β) → Option β
  | [] => none
  | p :: rest => if p.1 = k then some p.2 else dictLookup k rest

/-- Dictionary item assignment `d[k] = v`: replace the first (unique) entry
with key `k` in place, or append a new entry. -/
def dictInsert (k : String) (v : β) : List (String × β) → List (String × β)
  | [] => [(k, v)]
  | p :: rest => if p.1 = k then (k, v) :: rest else p :: dictInsert k v rest

/-- The loop body of `HybridServer.reintegrate` (hybrid_server.py lines
12-22), one iteration per link record: skip records whose `linkId` is
missing (`None` is never a key of `micro_results`) or absent from
`micro_results`; otherwise coerce the time with zero fallback, coerce the
micro `avg_delay` (raising on malformed values), and assign the correction
entry. -/
def reintegrateLoop (micro : List (String × MicroRec)) :
    List (String × Corr) → List LinkRec → Except PyErr (List (String × Corr))
  | acc, [] => .ok acc
  | acc, link :: rest =>
    match link.linkId with
    | none => reintegrateLoop micro acc rest
    | some lid =>
      match dictLookup lid micro with
      | none => reintegrateLoop micro acc rest
      | some m =>
        match microAvgDelay m with
        | .error e => .error e
        | .ok d =>
          reintegrateLoop micro (dictInsert lid ⟨orig_tt link, orig_tt link + d⟩ acc) rest

/-- `HybridServer.reintegrate` (hybrid_server.py lines 9-23). -/
def reintegrate (matsim_res : MatsimRes) (micro_results : List (String × MicroRec)) :
    Except PyErr (List (String × Corr)) :=
  reintegrateLoop micro_results [] (getLinkStats matsim_res)

/-- The loop of `SUMORunner.run_hotspots` (sumo_runner.py lines 14-22): for
each hotspot run `_run_hotspot`, store the result on success, log and skip
on any exception. The stochastic `_run_hotspot` call is abstracted by the
environment function `outcome` giving each link id its run outcome. -/
def runHotspotsLoop (outcome : String → Except PyErr MicroRec) :
    List (String × MicroRec) → List String → List (String × MicroRec)
  | acc, [] => acc
  | acc, lid :: rest =>
    match outcome lid with
    | .ok r => runHotspotsLoop outcome (dictInsert lid r acc) rest
    | .error _ => runHotspotsLoop outcome acc rest

/-- `SUMORunner.run_hotspots`. -/
def run_hotspots (outcome : String → Except PyErr MicroRec) (hotspots : List String) :
    List (String × MicroRec) :=
  runHotspotsLoop outcome [] hotspots

/-- Environment of one `MATSimRunner.run_baseline` invocation: the return
code of the Java subprocess and the rows `_parse_linkstats` produces from
`linkstats.csv` (empty when the file is absent). `_parse_events` always
returns the empty list in this version. -/
structure MatsimEnv where
  returncode : Int
  linkstats_rows : List LinkRec

/-- `MATSimRunner.run_baseline` (matism_runner.py lines 14-29): write the
config file, run the Java subprocess, raise `RuntimeError` on a non-zero
return code, otherwise parse the outputs. The second component is the list
of files written, in order. -/
def run_baseline (env : MatsimEnv) : Except PyErr MatsimRes × List String :=
  if env.returncode ≠ 0 then
    (.error (.runtimeError "MATSim failed"), ["matsim_config.xml"])
  else
    (.ok ⟨some env.linkstats_rows⟩, ["matsim_config.xml"])

/-- Environment of one `HybridOrchestrator.run_full_pipeline` invocation:
the baseline mesoscopic run, the per-hotspot micro outcomes, and the
corrected mesoscopic re-run performed by `run_with_corrections`. -/
structure PipelineEnv where
  baseline : MatsimEnv
  micro_outcome : String → Except PyErr MicroRec
  corrected : MatsimEnv

/-- `HybridOrchestrator.run_full_pipeline` (run_hybrid.py lines 21-36):
baseline run, hotspot detection with `top_n=10`, per-hotspot micro runs,
reintegration, corrected re-run, and only then the write of
`final_results.json`. Any raise propagates and aborts the sequence. The
second component is the list of files written, in order. -/
def run_full_pipeline (env : PipelineEnv) : Except PyErr MatsimRes × List String :=
  match run_baseline env.baseline with
  | (.error e, w) => (.error e, w)
  | (.ok matsim_res, w1) =>
    match detect_hotspots matsim_res 10 with
    | .error e => (.error e, w1)
    | .ok hotspots =>
      let micro_results := run_hotspots env.micro_outcome hotspots
      match reintegrate matsim_res micro_results with
      | .error e => (.error e, w1)
      | .ok _reintegrated =>
        match run_baseline env.corrected with
        | (.error e, w2) => (.error e, w1 ++ w2)
        | (.ok final_res, w2) => (.ok final_res, w1 ++ w2 ++ ["final_results.json"])

/-- Body of a response of the `GET /results` endpoint. -/
inductive ResultBody (α : Type) where
  | statusMsg (s : String)
  | json (j : α)
  deriving DecidableEq, Repr

/-- State the endpoint reads: whether `output/final_results.json` exists,
and, abstracting `json.loads` of its text, the parsed value it holds. -/
structure ResultsFS (α : Type) where
  final_exists : Bool
  parsed : α
  deriving DecidableEq, Repr

/-- `get_results` (server.py lines 36-42): HTTP 202 with body
`status: not ready` while the result file does not exist, HTTP 200 with the
parsed JSON content once it does. -/
def get_results (fs : ResultsFS α) : Nat × ResultBody α :=
  if fs.final_exists then (200, .json fs.parsed)
  else (202, .statusMsg "not ready")

example : detect_hotspots ⟨some [⟨some "A", none, some (.num 10)⟩,
    ⟨some "B", none, some (.num 5)⟩, ⟨some "C", none, some (.bad "bad")⟩]⟩ 2 =
    .ok ["A", "B"] := by
  norm_num +decide [detect_hotspots, getLinkStats, sortByDesc, insertByDesc, delay_key,
    pySlice, mapLinkIds, getLinkId]

example : reintegrate ⟨some [⟨some "A", some (.num 100), none⟩]⟩
    [("A", ⟨some (.num 5)⟩)] = .ok [("A", ⟨100, 105⟩)] := by
  norm_num +decide [reintegrate, reintegrateLoop, getLinkStats, dictLookup, dictInsert,
    microAvgDelay, pyFloat, orig_tt]

example : reintegrate ⟨some [⟨some "A", some (.num 100), none⟩,
    ⟨some "B", some (.num 7), none⟩]⟩ [("A", ⟨some (.num 5)⟩)] =
    .ok [("A", ⟨100, 105⟩)] := by
  norm_num +decide [reintegrate, reintegrateLoop, getLinkStats, dictLookup, dictInsert,
    microAvgDelay, pyFloat, orig_tt]

example : reintegrate ⟨some [⟨some "A", none, none⟩]⟩
    [("A", ⟨some (.bad "xx")⟩)] = .error .valueError := by
  norm_num +decide [reintegrate, reintegrateLoop, getLinkStats, dictLookup,
    microAvgDelay, pyFloat]

/-! ### Dictionary lemmas -/

theorem dictLookup_dictInsert_self (k : String) (v : β) (d : List (String × β)) :
    dictLookup k (dictInsert k v d) = some v := by
  induction d with
  | nil => simp [dictInsert, dictLookup]
  | cons p rest ih =>
    by_cases h : p.1 = k
    · simp [dictInsert, dictLookup, h]
    · simp [dictInsert, dictLookup, h, ih]

theorem dictLookup_dictInsert_ne (k1 k : String) (v : β) (d : List (String × β))
    (h : k1 ≠ k) : dictLookup k1 (dictInsert k v d) = dictLookup k1 d := by
  induction d with
  | nil =>
    simp [dictInsert, dictLookup]
    intro hk
    exact absurd hk.symm h
  | cons p rest ih =>
    by_cases hp : p.1 = k
    · subst hp
      simp only [dictInsert, if_pos rfl, dictLookup]
      rw [if_neg (fun hk => h hk.symm), if_neg (fun hk => h hk.symm)]
    · by_cases hp1 : p.1 = k1
      · simp [dictInsert, hp, dictLookup, hp1, h]
      · simp [dictInsert, hp, dictLookup, hp1, ih]

/-! ### run_hotspots lemmas (C5) -/

theorem runHotspotsLoop_lookup (outcome : String → Except PyErr MicroRec)
    (hs : List String) :
    ∀ (acc : List (String × MicroRec)) (lid : String),
    dictLookup lid (runHotspotsLoop outcome acc hs) =
      if lid ∈ hs then
        (match outcome lid with
         | .ok r => some r
         | .error _ => dictLookup lid acc)
      else dictLookup lid acc := by
  induction hs with
  | nil => intro acc lid; simp [runHotspotsLoop]
  | cons h0 rest ih =>
    intro acc lid
    by_cases hlid : lid = h0
    · subst hlid
      rcases hout : outcome lid with e | r
      · have step : runHotspotsLoop outcome acc (lid :: rest) =
            runHotspotsLoop outcome acc rest := by
          simp [runHotspotsLoop, hout]
        rw [step, ih]
        by_cases hmem : lid ∈ rest <;> simp [hmem, hout]
      · have step : runHotspotsLoop outcome acc (lid :: rest) =
            runHotspotsLoop outcome (dictInsert lid r acc) rest := by
          simp [runHotspotsLoop, hout]
        rw [step, ih]
        by_cases hmem : lid ∈ rest <;>
          simp [hmem, hout, dictLookup_dictInsert_self]
    · rcases hout : outcome h0 with e | r
      · have step : runHotspotsLoop outcome acc (h0 :: rest) =
            runHotspotsLoop outcome acc rest := by
          simp [runHotspotsLoop, hout]
        rw [step, ih]
        simp [List.mem_cons, hlid]
      · have step : runHotspotsLoop outcome acc (h0 :: rest) =
            runHotspotsLoop outcome (dictInsert h0 r acc) rest := by
          simp [runHotspotsLoop, hout]
        rw [step, ih]
        simp only [dictLookup_dictInsert_ne lid h0 r acc hlid]
        simp [List.mem_cons, hlid]

/-- C5: SUMORunner.run_hotspots catches the exception of each individual
hotspot run and continues: the returned mapping has a key exactly for each
hotspot whose run did not raise, and each stored value is the result of the
successful run of that hotspot. -/
theorem run_hotspots_partial_failure (outcome : String → Except PyErr MicroRec)
    (hotspots : List String) (lid : String) :
    ((dictLookup lid (run_hotspots outcome hotspots)).isSome ↔
      lid ∈ hotspots ∧ ∃ r, outcome lid = .ok r) ∧
    (∀ r, dictLookup lid (run_hotspots outcome hotspots) = some r →
      outcome lid = .ok r) := by
  have key := runHotspotsLoop_lookup outcome hotspots [] lid
  rw [run_hotspots] at *
  constructor
  · rw [key]
    by_cases hmem : lid ∈ hotspots
    · rcases hout : outcome lid with e | r
      · simp [hmem, hout, dictLookup]
      · simp [hmem, hout]
    · simp [hmem, dictLookup]
  · intro r hr
    rw [key] at hr
    by_cases hmem : lid ∈ hotspots
    · rcases hout : outcome lid with e | r2
      · simp [hmem, hout, dictLookup] at hr
      · simp [hmem, hout] at hr
        rw [hr]
    · simp [hmem, dictLookup] at hr

/-- C5 witness: with an outcome that succeeds on link A and raises on link
B, the mapping holds exactly A. -/
theorem run_hotspots_partial_failure_witness :
    (dictLookup "A" (run_hotspots
      (fun s => if s = "A" then .ok ⟨some (.num 1)⟩ else .error .valueError)
      ["A", "B"])).isSome ∧
    ¬ (dictLookup "B" (run_hotspots
      (fun s => if s = "A" then .ok ⟨some (.num 1)⟩ else .error .valueError)
      ["A", "B"])).isSome := by
  constructor
  · exact (run_hotspots_partial_failure
      (fun s => if s = "A" then .ok ⟨some (.num 1)⟩ else .error .valueError)
      ["A", "B"] "A").1.mpr ⟨by simp, ⟨⟨some (.num 1)⟩, by simp⟩⟩
  · intro hcon
    have := (run_hotspots_partial_failure
      (fun s => if s = "A" then .ok ⟨some (.num 1)⟩ else .error .valueError)
      ["A", "B"] "B").1.mp hcon
    rcases this with ⟨-, r, hr⟩
    simp at hr

/-- C8: HybridServer.reintegrate is deterministic: the correction map is a
pure function of the mesoscopic result and the micro-result mapping, so two
calls on equal arguments return equal maps (the source reads no ambient
state and uses no randomness). -/
theorem reintegrate_deterministic (a a2 : MatsimRes)
    (b b2 : List (String × MicroRec)) (ha : a = a2) (hb : b = b2) :
    reintegrate a b = reintegrate a2 b2 := by
  rw [ha, hb]

/-- C8 witness at a concrete argument pair. -/
theorem reintegrate_deterministic_witness :
    reintegrate ⟨some [⟨some "A", some (.num 3), none⟩]⟩ [("A", ⟨some (.num 2)⟩)] =
    reintegrate ⟨some [⟨some "A", some (.num 3), none⟩]⟩ [("A", ⟨some (.num 2)⟩)] :=
  reintegrate_deterministic _ _ _ _ rfl rfl

/-! ### reintegrate lemmas (C1) -/

theorem reintegrateLoop_lookup_isSome (micro : List (String × MicroRec)) :
    ∀ (ls : List LinkRec) (acc cor : List (String × Corr)),
    reintegrateLoop micro acc ls = .ok cor → ∀ lid : String,
    ((dictLookup lid cor).isSome ↔ (dictLookup lid acc).isSome ∨
      ((∃ r ∈ ls, r.linkId = some lid) ∧ (dictLookup lid micro).isSome)) := by
  intro ls
  induction ls with
  | nil =>
    intro acc cor h lid
    simp only [reintegrateLoop] at h
    cases h
    simp
  | cons link rest ih =>
    intro acc cor h lid
    rcases hlink : link.linkId with _ | l0
    · simp only [reintegrateLoop, hlink] at h
      rw [ih acc cor h lid]
      constructor
      · rintro (h1 | ⟨⟨r, hr, hrid⟩, hms⟩)
        · exact Or.inl h1
        · exact Or.inr ⟨⟨r, List.mem_cons_of_mem _ hr, hrid⟩, hms⟩
      · rintro (h1 | ⟨⟨r, hr, hrid⟩, hms⟩)
        · exact Or.inl h1
        · rcases List.mem_cons.mp hr with rfl | hr2
          · rw [hlink] at hrid
            exact absurd hrid (by simp)
          · exact Or.inr ⟨⟨r, hr2, hrid⟩, hms⟩
    · rcases hm : dictLookup l0 micro with _ | m
      · simp only [reintegrateLoop, hlink, hm] at h
        rw [ih acc cor h lid]
        constructor
        · rintro (h1 | ⟨⟨r, hr, hrid⟩, hms⟩)
          · exact Or.inl h1
          · exact Or.inr ⟨⟨r, List.mem_cons_of_mem _ hr, hrid⟩, hms⟩
        · rintro (h1 | ⟨⟨r, hr, hrid⟩, hms⟩)
          · exact Or.inl h1
          · rcases List.mem_cons.mp hr with rfl | hr2
            · rw [hlink] at hrid
              have hl : l0 = lid := by
                exact Option.some.inj hrid
              rw [hl] at hm
              rw [hm] at hms
              exact absurd hms (by simp)
            · exact Or.inr ⟨⟨r, hr2, hrid⟩, hms⟩
      · rcases hd : microAvgDelay m with e | d
        · simp only [reintegrateLoop, hlink, hm, hd] at h
          exact Except.noConfusion h
        · simp only [reintegrateLoop, hlink, hm, hd] at h
          rw [ih _ cor h lid]
          by_cases hl : lid = l0
          · subst hl
            rw [dictLookup_dictInsert_self]
            constructor
            · intro _
              exact Or.inr ⟨⟨link, List.mem_cons_self _ _, hlink⟩,
                by rw [hm]; rfl⟩
            · intro _
              exact Or.inl (by simp)
          · rw [dictLookup_dictInsert_ne lid l0 _ acc hl]
            constructor
            · rintro (h1 | ⟨⟨r, hr, hrid⟩, hms⟩)
              · exact Or.inl h1
              · exact Or.inr ⟨⟨r, List.mem_cons_of_mem _ hr, hrid⟩, hms⟩
            · rintro (h1 | ⟨⟨r, hr, hrid⟩, hms⟩)
              · exact Or.inl h1
              · rcases List.mem_cons.mp hr with rfl | hr2
                · rw [hlink] at hrid
                  exact absurd (Option.some.inj hrid) (fun hx => hl hx.symm)
                · exact Or.inr ⟨⟨r, hr2, hrid⟩, hms⟩

theorem reintegrateLoop_lookup_value (micro : List (String × MicroRec)) :
    ∀ (ls : List LinkRec) (acc cor : List (String × Corr)),
    reintegrateLoop micro acc ls = .ok cor → ∀ (lid : String) (c : Corr),
    dictLookup lid cor = some c →
    dictLookup lid acc = some c ∨
      ∃ r ∈ ls, r.linkId = some lid ∧
        ∃ m, dictLookup lid micro = some m ∧
          ∃ d, microAvgDelay m = .ok d ∧ c = ⟨orig_tt r, orig_tt r + d⟩ := by
  intro ls
  induction ls with
  | nil =>
    intro acc cor h lid c hc
    simp only [reintegrateLoop] at h
    cases h
    exact Or.inl hc
  | cons link rest ih =>
    intro acc cor h lid c hc
    rcases hlink : link.linkId with _ | l0
    · simp only [reintegrateLoop, hlink] at h
      rcases ih acc cor h lid c hc with h1 | ⟨r, hr, hrest⟩
      · exact Or.inl h1
      · exact Or.inr ⟨r, List.mem_cons_of_mem _ hr, hrest⟩
    · rcases hm : dictLookup l0 micro with _ | m
      · simp only [reintegrateLoop, hlink, hm] at h
        rcases ih acc cor h lid c hc with h1 | ⟨r, hr, hrest⟩
        · exact Or.inl h1
        · exact Or.inr ⟨r, List.mem_cons_of_mem _ hr, hrest⟩
      · rcases hd : microAvgDelay m with e | d
        · simp only [reintegrateLoop, hlink, hm, hd] at h
          exact Except.noConfusion h
        · simp only [reintegrateLoop, hlink, hm, hd] at h
          rcases ih _ cor h lid c hc with h1 | ⟨r, hr, hrest⟩
          · by_cases hl : lid = l0
            · subst hl
              rw [dictLookup_dictInsert_self] at h1
              refine Or.inr ⟨link, List.mem_cons_self _ _, hlink, m, hm, d, hd, ?_⟩
              exact (Option.some.inj h1).symm
            · rw [dictLookup_dictInsert_ne lid l0 _ acc hl] at h1
              exact Or.inl h1
          · exact Or.inr ⟨r, List.mem_cons_of_mem _ hr, hrest⟩

/-- C1: the corrections map returned by HybridServer.reintegrate has an
entry for a link identifier exactly when some record of the link stats
carries that linkId and the identifier is a key of micro_results; each
entry holds the original travel time of such a record (the time field
coerced with zero fallback) and that value plus the coerced micro
avg_delay estimate; records whose identifier is absent from micro_results
contribute no entry. -/
theorem reintegrate_correct (res : MatsimRes) (micro : List (String × MicroRec))
    (cor : List (String × Corr)) (h : reintegrate res micro = .ok cor) :
    (∀ lid : String, (dictLookup lid cor).isSome ↔
      ((∃ r ∈ getLinkStats res, r.linkId = some lid) ∧
        (dictLookup lid micro).isSome)) ∧
    (∀ (lid : String) (c : Corr), dictLookup lid cor = some c →
      ∃ r ∈ getLinkStats res, r.linkId = some lid ∧
        ∃ m, dictLookup lid micro = some m ∧
          ∃ d, microAvgDelay m = .ok d ∧
            c.orig = orig_tt r ∧ c.corrected = orig_tt r + d) := by
  rw [reintegrate] at h
  constructor
  · intro lid
    have hx := reintegrateLoop_lookup_isSome micro (getLinkStats res) [] cor h lid
    simpa [dictLookup] using hx
  · intro lid c hc
    rcases reintegrateLoop_lookup_value micro (getLinkStats res) [] cor h lid c hc with
      h1 | ⟨r, hr, hrid, m, hm, d, hd, hcval⟩
    · simp [dictLookup] at h1
    · exact ⟨r, hr, hrid, m, hm, d, hd, by rw [hcval], by rw [hcval]⟩

/-- C1 witness: at a concrete input with links A and B but a micro result
only for A, the map has an entry for A and none for B. -/
theorem reintegrate_correct_witness :
    ((dictLookup "A" [("A", (⟨100, 105⟩ : Corr))]).isSome ↔
      ((∃ r ∈ getLinkStats ⟨some [⟨some "A", some (.num 100), none⟩,
          ⟨some "B", some (.num 7), none⟩]⟩, r.linkId = some "A") ∧
        (dictLookup "A" [("A", (⟨some (.num 5)⟩ : MicroRec))]).isSome)) ∧
    ((dictLookup "B" [("A", (⟨100, 105⟩ : Corr))]).isSome ↔
      ((∃ r ∈ getLinkStats ⟨some [⟨some "A", some (.num 100), none⟩,
          ⟨some "B", some (.num 7), none⟩]⟩, r.linkId = some "B") ∧
        (dictLookup "B" [("A", (⟨some (.num 5)⟩ : MicroRec))]).isSome)) := by
  have hrun : reintegrate ⟨some [⟨some "A", some (.num 100), none⟩,
      ⟨some "B", some (.num 7), none⟩]⟩ [("A", ⟨some (.num 5)⟩)] =
      .ok [("A", ⟨100, 105⟩)] := by
    norm_num +decide [reintegrate, reintegrateLoop, getLinkStats, dictLookup,
      dictInsert, microAvgDelay, pyFloat, orig_tt]
  have hmain := reintegrate_correct ⟨some [⟨some "A", some (.num 100), none⟩,
      ⟨some "B", some (.num 7), none⟩]⟩ [("A", ⟨some (.num 5)⟩)]
      [("A", ⟨100, 105⟩)] hrun
  exact ⟨hmain.1 "A", hmain.1 "B"⟩

/-! ### Stable descending sort lemmas (C2, C6, C9) -/

theorem insertByDesc_perm (key : α → ℚ) (x : α) :
    ∀ l : List α, List.Perm (insertByDesc key x l) (x :: l) := by
  intro l
  induction l with
  | nil => simp [insertByDesc]
  | cons y ys ih =>
    rw [insertByDesc]
    by_cases hc : key y ≤ key x
    · rw [if_pos hc]
    · rw [if_neg hc]
      exact (ih.cons y).trans (List.Perm.swap x y ys)

theorem mem_insertByDesc (key : α → ℚ) (x z : α) (l : List α) :
    z ∈ insertByDesc key x l ↔ z = x ∨ z ∈ l := by
  rw [(insertByDesc_perm key x l).mem_iff]
  simp

theorem sortByDesc_perm (key : α → ℚ) :
    ∀ l : List α, List.Perm (sortByDesc key l) l := by
  intro l
  induction l with
  | nil => simp [sortByDesc]
  | cons x xs ih =>
    rw [sortByDesc]
    exact (insertByDesc_perm key x (sortByDesc key xs)).trans (ih.cons x)

theorem sorted_insertByDesc (key : α → ℚ) (x : α) :
    ∀ l : List α, List.Sorted (fun a b => key b ≤ key a) l →
    List.Sorted (fun a b => key b ≤ key a) (insertByDesc key x l) := by
  intro l
  induction l with
  | nil => intro _; simp [insertByDesc]
  | cons y ys ih =>
    intro h
    rw [List.sorted_cons] at h
    rw [insertByDesc]
    by_cases hc : key y ≤ key x
    · rw [if_pos hc, List.sorted_cons]
      refine ⟨?_, List.sorted_cons.mpr h⟩
      intro b hb
      rcases List.mem_cons.mp hb with rfl | hb2
      · exact hc
      · exact le_trans (h.1 b hb2) hc
    · rw [if_neg hc, List.sorted_cons]
      refine ⟨?_, ih h.2⟩
      intro b hb
      rcases (mem_insertByDesc key x b ys).mp hb with rfl | hb2
      · exact le_of_lt (not_le.mp hc)
      · exact h.1 b hb2

theorem sortByDesc_sorted (key : α → ℚ) :
    ∀ l : List α, List.Sorted (fun a b => key b ≤ key a) (sortByDesc key l) := by
  intro l
  induction l with
  | nil => simp [sortByDesc]
  | cons x xs ih =>
    rw [sortByDesc]
    exact sorted_insertByDesc key x (sortByDesc key xs) ih

theorem filter_insertByDesc_pos (key : α → ℚ) (x : α) (q : ℚ) (hx : key x = q) :
    ∀ l : List α,
    (insertByDesc key x l).filter (fun r => decide (key r = q)) =
      x :: l.filter (fun r => decide (key r = q)) := by
  intro l
  induction l with
  | nil => simp [insertByDesc, List.filter, hx]
  | cons y ys ih =>
    rw [insertByDesc]
    by_cases hc : key y ≤ key x
    · rw [if_pos hc]
      simp [List.filter, hx]
    · rw [if_neg hc]
      have hy : ¬ (key y = q) := by
        intro hq
        exact hc (by rw [hq, ← hx])
      rw [List.filter_cons_of_neg (by simpa using hy), ih,
        List.filter_cons_of_neg (by simpa using hy)]

theorem filter_insertByDesc_neg (key : α → ℚ) (x : α) (q : ℚ) (hx : ¬ key x = q) :
    ∀ l : List α,
    (insertByDesc key x l).filter (fun r => decide (key r = q)) =
      l.filter (fun r => decide (key r = q)) := by
  intro l
  induction l with
  | nil => simp [insertByDesc, List.filter, hx]
  | cons y ys ih =>
    rw [insertByDesc]
    by_cases hc : key y ≤ key x
    · rw [if_pos hc]
      rw [List.filter_cons_of_neg (by simpa using hx)]
    · rw [if_neg hc]
      by_cases hy : key y = q
      · rw [List.filter_cons_of_pos (by simpa using hy), ih,
          List.filter_cons_of_pos (by simpa using hy)]
      · rw [List.filter_cons_of_neg (by simpa using hy), ih,
          List.filter_cons_of_neg (by simpa using hy)]

theorem sortByDesc_stable (key : α → ℚ) (q : ℚ) :
    ∀ l : List α,
    (sortByDesc key l).filter (fun r => decide (key r = q)) =
      l.filter (fun r => decide (key r = q)) := by
  intro l
  induction l with
  | nil => simp [sortByDesc]
  | cons x xs ih =>
    rw [sortByDesc]
    by_cases hx : key x = q
    · rw [filter_insertByDesc_pos key x q hx _, ih,
        List.filter_cons_of_pos (by simpa using hx)]
    · rw [filter_insertByDesc_neg key x q hx _, ih,
        List.filter_cons_of_neg (by simpa using hx)]

/-! ### mapLinkIds and pySlice lemmas -/

theorem getLinkId_ok_iff (r : LinkRec) (s : String) :
    getLinkId r = .ok s ↔ r.linkId = some s := by
  cases hr : r.linkId <;> simp [getLinkId, hr]

theorem mapLinkIds_ok (l : List LinkRec) (h : ∀ r ∈ l, (r.linkId).isSome) :
    mapLinkIds l = .ok (l.map (fun r => r.linkId.getD "")) := by
  induction l with
  | nil => simp [mapLinkIds]
  | cons r rest ih =>
    obtain ⟨s, hs⟩ := Option.isSome_iff_exists.mp (h r (List.mem_cons_self r rest))
    rw [mapLinkIds, ih (fun r2 hr2 => h r2 (List.mem_cons_of_mem r hr2))]
    simp [getLinkId, hs]

theorem mapLinkIds_error (l : List LinkRec) (h : ∃ r ∈ l, r.linkId = none) :
    mapLinkIds l = .error .keyError := by
  induction l with
  | nil =>
    exact absurd h (by simp)
  | cons r rest ih =>
    by_cases hr : r.linkId = none
    · simp [mapLinkIds, getLinkId, hr]
    · obtain ⟨s, hs⟩ := Option.ne_none_iff_exists.mp hr
      rcases h with ⟨r0, hr0mem, hr0⟩
      rcases List.mem_cons.mp hr0mem with rfl | hr0rest
      · exact absurd hr0 hr
      · rw [mapLinkIds, ih ⟨r0, hr0rest, hr0⟩]
        simp [getLinkId, ← hs]

theorem mapLinkIds_ok_inv :
    ∀ (l : List LinkRec) (out : List String), mapLinkIds l = .ok out →
    out.length = l.length ∧ ∀ s ∈ out, ∃ r ∈ l, r.linkId = some s := by
  intro l
  induction l with
  | nil =>
    intro out h
    simp only [mapLinkIds] at h
    cases h
    simp
  | cons r rest ih =>
    intro out h
    rcases hg : getLinkId r with e | s
    · rw [mapLinkIds, hg] at h
      exact Except.noConfusion h
    · rcases hm : mapLinkIds rest with e | ss
      · rw [mapLinkIds, hg, hm] at h
        exact Except.noConfusion h
      · rw [mapLinkIds, hg, hm] at h
        have hout : out = s :: ss := by
          simpa using h.symm
        subst hout
        obtain ⟨hlen, hmem⟩ := ih ss hm
        constructor
        · simp [hlen]
        · intro x hx
          rcases List.mem_cons.mp hx with rfl | hx2
          · exact ⟨r, List.mem_cons_self r rest, (getLinkId_ok_iff r x).mp hg⟩
          · obtain ⟨r2, hr2, hr2id⟩ := hmem x hx2
            exact ⟨r2, List.mem_cons_of_mem r hr2, hr2id⟩

theorem pySlice_eq_take (l : List α) (n : Int) (hn : 0 ≤ n) :
    pySlice l n = l.take n.toNat := by
  rw [pySlice, if_pos hn]

theorem pySlice_subset (l : List α) (n : Int) (x : α) (hx : x ∈ pySlice l n) :
    x ∈ l := by
  rw [pySlice] at hx
  split at hx <;> exact List.take_subset _ _ hx

theorem pySlice_length_le (l : List α) (n : Int) (hn : 0 ≤ n) :
    ((pySlice l n).length : Int) ≤ n := by
  rw [pySlice_eq_take l n hn]
  calc ((l.take n.toNat).length : Int) ≤ (n.toNat : Int) := by
        exact_mod_cast List.length_take_le n.toNat l
    _ = n := Int.toNat_of_nonneg hn

/-- C2: detect_hotspots coerces each delay with zero fallback and no raise,
orders the records by descending coerced delay with ties kept in input
order (there is an ordering of the link stats that is a permutation,
descending-sorted on the coerced delay, equal to the input on every
equal-delay class), and returns the linkId values of the first N records of
that ordering; empty input gives an empty list. Stated for a count N
(nonnegative, as the signature intends) and inputs whose records all carry
a linkId (a missing linkId raises, which claim C9 covers). -/
theorem detect_hotspots_correct (res : MatsimRes) (n : Int) (hn : 0 ≤ n)
    (hid : ∀ r ∈ getLinkStats res, (r.linkId).isSome) :
    ∃ sorted_links : List LinkRec,
      List.Perm sorted_links (getLinkStats res) ∧
      List.Sorted (fun a b => delay_key b ≤ delay_key a) sorted_links ∧
      (∀ q : ℚ, sorted_links.filter (fun r => decide (delay_key r = q)) =
        (getLinkStats res).filter (fun r => decide (delay_key r = q))) ∧
      detect_hotspots res n =
        .ok ((sorted_links.take n.toNat).map (fun r => r.linkId.getD "")) ∧
      (getLinkStats res = [] → detect_hotspots res n = .ok []) := by
  refine ⟨sortByDesc delay_key (getLinkStats res),
    sortByDesc_perm delay_key _, sortByDesc_sorted delay_key _,
    fun q => sortByDesc_stable delay_key q _, ?_, ?_⟩
  · rw [detect_hotspots]
    by_cases hempty : getLinkStats res = []
    · rw [if_pos (by simp [hempty])]
      rw [hempty]
      simp [sortByDesc]
    · rw [if_neg (by simpa [List.isEmpty_iff] using hempty)]
      rw [pySlice_eq_take _ n hn]
      apply mapLinkIds_ok
      intro r hr
      exact hid r ((sortByDesc_perm delay_key _).mem_iff.mp
        (List.take_subset _ _ hr))
  · intro hempty
    rw [detect_hotspots, if_pos (by simp [hempty])]

/-- C2 witness at the spec example: records A (delay 10), B (delay 5),
C (malformed delay), N = 2. -/
theorem detect_hotspots_correct_witness :
    ∃ sorted_links : List LinkRec,
      List.Perm sorted_links (getLinkStats ⟨some [⟨some "A", none, some (.num 10)⟩,
        ⟨some "B", none, some (.num 5)⟩, ⟨some "C", none, some (.bad "bad")⟩]⟩) ∧
      List.Sorted (fun a b => delay_key b ≤ delay_key a) sorted_links ∧
      (∀ q : ℚ, sorted_links.filter (fun r => decide (delay_key r = q)) =
        (getLinkStats ⟨some [⟨some "A", none, some (.num 10)⟩,
          ⟨some "B", none, some (.num 5)⟩,
          ⟨some "C", none, some (.bad "bad")⟩]⟩).filter
            (fun r => decide (delay_key r = q))) ∧
      detect_hotspots ⟨some [⟨some "A", none, some (.num 10)⟩,
        ⟨some "B", none, some (.num 5)⟩, ⟨some "C", none, some (.bad "bad")⟩]⟩ 2 =
        .ok ((sorted_links.take (2 : Int).toNat).map (fun r => r.linkId.getD "")) ∧
      (getLinkStats ⟨some [⟨some "A", none, some (.num 10)⟩,
        ⟨some "B", none, some (.num 5)⟩, ⟨some "C", none, some (.bad "bad")⟩]⟩ = [] →
        detect_hotspots ⟨some [⟨some "A", none, some (.num 10)⟩,
          ⟨some "B", none, some (.num 5)⟩,
          ⟨some "C", none, some (.bad "bad")⟩]⟩ 2 = .ok []) :=
  detect_hotspots_correct ⟨some [⟨some "A", none, some (.num 10)⟩,
    ⟨some "B", none, some (.num 5)⟩, ⟨some "C", none, some (.bad "bad")⟩]⟩ 2
    (by norm_num) (by decide)

/-- C6: the hotspot list has at most N entries (N a count) and every
returned identifier is the linkId of some input record. -/
theorem detect_hotspots_bound (res : MatsimRes) (n : Int) (out : List String)
    (hn : 0 ≤ n) (h : detect_hotspots res n = .ok out) :
    (out.length : Int) ≤ n ∧
    ∀ s ∈ out, ∃ r ∈ getLinkStats res, r.linkId = some s := by
  rw [detect_hotspots] at h
  by_cases hempty : (getLinkStats res).isEmpty
  · rw [if_pos hempty] at h
    have hout : out = [] := by simpa using h.symm
    subst hout
    simp [hn]
  · rw [if_neg hempty] at h
    obtain ⟨hlen, hmem⟩ := mapLinkIds_ok_inv _ _ h
    constructor
    · rw [hlen]
      exact pySlice_length_le _ n hn
    · intro s hs
      obtain ⟨r, hr, hrid⟩ := hmem s hs
      exact ⟨r, (sortByDesc_perm delay_key _).mem_iff.mp
        (pySlice_subset _ _ _ hr), hrid⟩

/-- C6 witness: two records, N = 1, output A only. -/
theorem detect_hotspots_bound_witness :
    ((["A"] : List String).length : Int) ≤ 1 ∧
    ∀ s ∈ (["A"] : List String),
      ∃ r ∈ getLinkStats ⟨some [⟨some "A", none, some (.num 10)⟩,
        ⟨some "B", none, some (.num 5)⟩]⟩, r.linkId = some s :=
  detect_hotspots_bound ⟨some [⟨some "A", none, some (.num 10)⟩,
    ⟨some "B", none, some (.num 5)⟩]⟩ 1 ["A"] (by norm_num)
    (by norm_num +decide [detect_hotspots, getLinkStats, sortByDesc,
      insertByDesc, delay_key, pySlice, mapLinkIds, getLinkId])

/-- C9: detect_hotspots raises KeyError when a record among the first N of
the sorted order lacks a linkId key, and returns normally whenever every
input record carries one. -/
theorem detect_hotspots_keyerror (res : MatsimRes) (n : Int) :
    ((∃ r ∈ pySlice (sortByDesc delay_key (getLinkStats res)) n,
        r.linkId = none) →
      detect_hotspots res n = .error .keyError) ∧
    ((∀ r ∈ getLinkStats res, (r.linkId).isSome) →
      ∃ out, detect_hotspots res n = .ok out) := by
  constructor
  · rintro ⟨r, hr, hrnone⟩
    rw [detect_hotspots]
    have hne : ¬ (getLinkStats res).isEmpty := by
      intro hemp
      have hnil : getLinkStats res = [] := List.isEmpty_iff.mp hemp
      have hrs : r ∈ getLinkStats res :=
        (sortByDesc_perm delay_key _).mem_iff.mp (pySlice_subset _ _ _ hr)
      rw [hnil] at hrs
      exact absurd hrs (List.not_mem_nil r)
    rw [if_neg hne]
    exact mapLinkIds_error _ ⟨r, hr, hrnone⟩
  · intro hid
    by_cases hempty : (getLinkStats res).isEmpty
    · exact ⟨[], by rw [detect_hotspots, if_pos hempty]⟩
    · have hok := mapLinkIds_ok (pySlice (sortByDesc delay_key (getLinkStats res)) n)
        (fun r hr => hid r ((sortByDesc_perm delay_key _).mem_iff.mp
          (pySlice_subset _ _ _ hr)))
      exact ⟨_, by rw [detect_hotspots, if_neg hempty, hok]⟩

/-- C9 witness: a record without linkId raises; a record with one returns
normally. -/
theorem detect_hotspots_keyerror_witness :
    detect_hotspots ⟨some [⟨none, none, none⟩]⟩ 5 = .error .keyError ∧
    ∃ out, detect_hotspots ⟨some [⟨some "A", none, none⟩]⟩ 5 = .ok out := by
  constructor
  · exact (detect_hotspots_keyerror ⟨some [⟨none, none, none⟩]⟩ 5).1
      ⟨⟨none, none, none⟩, by decide, rfl⟩
  · exact (detect_hotspots_keyerror ⟨some [⟨some "A", none, none⟩]⟩ 5).2
      (by decide)

/-- C4: a non-zero return code of the mesoscopic subprocess makes
run_baseline raise RuntimeError with no retry, run_full_pipeline propagates
the error, and final_results.json is not among the files written; moreover
for every environment, final_results.json is written only when the whole
pipeline returns normally. -/
theorem pipeline_aborts_on_matsim_failure (env : PipelineEnv)
    (h : env.baseline.returncode ≠ 0) :
    (run_baseline env.baseline).1 = .error (.runtimeError "MATSim failed") ∧
    (run_full_pipeline env).1 = .error (.runtimeError "MATSim failed") ∧
    "final_results.json" ∉ (run_full_pipeline env).2 ∧
    (∀ env2 : PipelineEnv, "final_results.json" ∈ (run_full_pipeline env2).2 →
      ∃ v, (run_full_pipeline env2).1 = .ok v) := by
  have hb : run_baseline env.baseline =
      (.error (.runtimeError "MATSim failed"), ["matsim_config.xml"]) := by
    rw [run_baseline, if_pos h]
  refine ⟨by rw [hb], ?_, ?_, ?_⟩
  · simp only [run_full_pipeline, hb]
  · simp only [run_full_pipeline, hb]
    simp
  · intro env2 hmem
    by_cases h1 : env2.baseline.returncode ≠ 0
    · have hb1 : run_baseline env2.baseline =
          (.error (.runtimeError "MATSim failed"), ["matsim_config.xml"]) := by
        rw [run_baseline, if_pos h1]
      simp only [run_full_pipeline, hb1] at hmem
      simp at hmem
    · have h0 : env2.baseline.returncode = 0 := not_ne_iff.mp h1
      have hb1 : run_baseline env2.baseline =
          (.ok ⟨some env2.baseline.linkstats_rows⟩, ["matsim_config.xml"]) := by
        rw [run_baseline, if_neg (by simp [h0])]
      simp only [run_full_pipeline, hb1] at hmem ⊢
      rcases hd : detect_hotspots ⟨some env2.baseline.linkstats_rows⟩ 10 with e | hsp
      · simp only [hd] at hmem
        simp at hmem
      · simp only [hd] at hmem ⊢
        rcases hre : reintegrate ⟨some env2.baseline.linkstats_rows⟩
            (run_hotspots env2.micro_outcome hsp) with e | cor
        · simp only [hre] at hmem
          simp at hmem
        · simp only [hre] at hmem ⊢
          by_cases h2 : env2.corrected.returncode ≠ 0
          · have hb2 : run_baseline env2.corrected =
                (.error (.runtimeError "MATSim failed"), ["matsim_config.xml"]) := by
              rw [run_baseline, if_pos h2]
            simp only [hb2] at hmem
            simp at hmem
          · have h02 : env2.corrected.returncode = 0 := not_ne_iff.mp h2
            have hb2 : run_baseline env2.corrected =
                (.ok ⟨some env2.corrected.linkstats_rows⟩, ["matsim_config.xml"]) := by
              rw [run_baseline, if_neg (by simp [h02])]
            simp only [hb2]
            exact ⟨_, rfl⟩

/-- C4 witness: return code 1 on the baseline run aborts the pipeline and
final_results.json is not written. -/
theorem pipeline_aborts_on_matsim_failure_witness :
    (run_baseline ⟨1, []⟩).1 = .error (.runtimeError "MATSim failed") ∧
    (run_full_pipeline ⟨⟨1, []⟩, fun _ => .error .valueError, ⟨0, []⟩⟩).1 =
      .error (.runtimeError "MATSim failed") ∧
    "final_results.json" ∉
      (run_full_pipeline ⟨⟨1, []⟩, fun _ => .error .valueError, ⟨0, []⟩⟩).2 :=
  ⟨(pipeline_aborts_on_matsim_failure
      ⟨⟨1, []⟩, fun _ => .error .valueError, ⟨0, []⟩⟩ (by norm_num)).1,
   (pipeline_aborts_on_matsim_failure
      ⟨⟨1, []⟩, fun _ => .error .valueError, ⟨0, []⟩⟩ (by norm_num)).2.1,
   (pipeline_aborts_on_matsim_failure
      ⟨⟨1, []⟩, fun _ => .error .valueError, ⟨0, []⟩⟩ (by norm_num)).2.2.1⟩

/-- C7: the GET /results endpoint answers 202 with body status not ready
while final_results.json does not exist and 200 with the parsed JSON once
it does. -/
theorem get_results_states {α : Type} (fs : ResultsFS α) :
    (fs.final_exists = false →
      get_results fs = (202, .statusMsg "not ready")) ∧
    (fs.final_exists = true → get_results fs = (200, .json fs.parsed)) := by
  constructor <;> intro h <;> simp [get_results, h]

/-- C7 witness at the two file-system states. -/
theorem get_results_states_witness :
    get_results (⟨false, 0⟩ : ResultsFS Nat) = (202, .statusMsg "not ready") ∧
    get_results (⟨true, 7⟩ : ResultsFS Nat) = (200, .json 7) :=
  ⟨(get_results_states ⟨false, 0⟩).1 rfl, (get_results_states ⟨true, 7⟩).2 rfl⟩

/-- C3 counterexample: a malformed micro avg_delay value is NOT swallowed:
reintegrate propagates the ValueError of the coercion, because
`float(micro.get("avg_delay", 0))` sits outside the try block. -/
theorem avg_delay_coercion_raises :
    reintegrate ⟨some [⟨some "A", none, none⟩]⟩
      [("A", ⟨some (.bad "not-a-number")⟩)] = .error .valueError := by
  norm_num +decide [reintegrate, reintegrateLoop, getLinkStats, dictLookup,
    microAvgDelay, pyFloat]

/-- C3 amended: a malformed delay field in hotspot selection and a
malformed time field in reintegration are swallowed and treated as zero
without raising, but the coercion of a malformed micro avg_delay field in
reintegration is unprotected and propagates an exception. -/
theorem coercion_fallback_correct (s : String) (lid : Option String)
    (t d : Option FVal) :
    delay_key ⟨lid, t, some (.bad s)⟩ = 0 ∧
    orig_tt ⟨lid, some (.bad s), d⟩ = 0 ∧
    microAvgDelay ⟨some (.bad s)⟩ = .error .valueError ∧
    detect_hotspots ⟨some [⟨some "A", none, some (.bad s)⟩]⟩ 10 = .ok ["A"] ∧
    reintegrate ⟨some [⟨some "A", some (.bad s), none⟩]⟩
      [("A", ⟨some (.num 1)⟩)] = .ok [("A", ⟨0, 1⟩)] ∧
    reintegrate ⟨some [⟨some "A", none, none⟩]⟩ [("A", ⟨some (.bad s)⟩)] =
      .error .valueError := by
  refine ⟨rfl, rfl, rfl, ?_, ?_, ?_⟩
  · norm_num +decide [detect_hotspots, getLinkStats, sortByDesc, insertByDesc,
      delay_key, pySlice, mapLinkIds, getLinkId]
  · norm_num +decide [reintegrate, reintegrateLoop, getLinkStats, dictLookup,
      dictInsert, microAvgDelay, pyFloat, orig_tt]
  · norm_num +decide [reintegrate, reintegrateLoop, getLinkStats, dictLookup,
      microAvgDelay, pyFloat]
